import Mathlib

/-! Verification of the `valit` repository: a shallow embedding of
`valit.value_iteration` (src/valit/valit.py) over exact rationals, together
with theorems settling the specification's claims about it.

Modelling conventions:
* Python floats are modelled as `ℚ` (exact arithmetic in place of IEEE doubles).
* A Python dict is an association list in key-insertion order; assignment
  updates an existing key in place, otherwise appends.
* The Python function either returns an error STRING (its input validation),
  raises an uncaught exception (e.g. `max` on an empty sequence, numpy
  broadcasting failure), or returns the pair `(policy_dict, val_dict)`.
  These three outcomes are `PyErr.errStr`, `PyErr.exn` and `Except.ok`.
* `horizon` is passed as `ℚ` so that the source's non-integrality check
  `int(horizon) != horizon` (here: `horizon.den ≠ 1`) is expressible.
* The dead statements `k = 0` / `k = k + 1` around the sweep loop in the
  source have no observable effect and are not modelled.
-/

set_option linter.unusedSectionVars false

namespace Valit

/-- Outcome of a Python call that did not produce a normal result: either an
error message string returned in place of a result, or an uncaught exception. -/
inductive PyErr : Type where
  | errStr : String → PyErr
  | exn : String → PyErr
deriving DecidableEq

/-- Result type of `value_iteration`: an error outcome, or the pair
(policy dict, value dict). -/
abbrev PyResult (S A : Type) := Except PyErr (List (S × A) × List (S × ℚ))

instance {ε α : Type} [DecidableEq ε] [DecidableEq α] : DecidableEq (Except ε α)
  | .error e, .error f =>
      if h : e = f then isTrue (by rw [h]) else isFalse (by simp [h])
  | .error _, .ok _ => isFalse (by simp)
  | .ok _, .error _ => isFalse (by simp)
  | .ok x, .ok y =>
      if h : x = y then isTrue (by rw [h]) else isFalse (by simp [h])

/-- Python dict assignment `d[k] = v`: overwrite in place when the key is
present (keeping its position), otherwise append at the end. -/
def dictSet {K V : Type} [DecidableEq K] : List (K × V) → K → V → List (K × V)
  | [], k, v => [(k, v)]
  | (k2, v2) :: rest, k, v =>
      if k2 = k then (k, v) :: rest else (k2, v2) :: dictSet rest k v

/-- `val_dict = dict(zip(states, [0]*len(states)))`. -/
def dictInit {S : Type} [DecidableEq S] (states : List S) : List (S × ℚ) :=
  states.foldl (fun d s => dictSet d s 0) []

/-- numpy elementwise product `xs * ys` of a probability vector with the list
of current values, including numpy's length-1 broadcasting; on incompatible
lengths numpy raises a ValueError. -/
def npMul (xs ys : List ℚ) : Except PyErr (List ℚ) :=
  if xs.length = ys.length then .ok (List.zipWith (fun x y => x * y) xs ys)
  else if xs.length = 1 then .ok (ys.map (fun y => xs.headD 0 * y))
  else if ys.length = 1 then .ok (xs.map (fun x => x * ys.headD 0))
  else .error (.exn "ValueError: operands could not be broadcast together")

variable {S A : Type} [DecidableEq S] [DecidableEq A]

/-- One q-value: `rewards(state=s, action=a) + discount*sum(probs(state=s, action=a)*list(val_dict.values()))`. -/
def qval (probs : S → A → List ℚ) (rewards : S → A → ℚ) (discount : ℚ)
    (d : List (S × ℚ)) (s : S) (a : A) : Except PyErr ℚ := do
  let p ← npMul (probs s a) (d.map Prod.snd)
  pure (rewards s a + discount * p.sum)

/-- The inner `for a in actions` loop: the values of `val_action` in
action-enumeration (dict-insertion) order. -/
def qlist (probs : S → A → List ℚ) (rewards : S → A → ℚ) (discount : ℚ)
    (d : List (S × ℚ)) (s : S) : List A → Except PyErr (List ℚ)
  | [] => .ok []
  | a :: t => do
    let q ← qval probs rewards discount d s a
    let qs ← qlist probs rewards discount d s t
    pure (q :: qs)

/-- Python `max` over a list of numbers; raises on an empty sequence. -/
def pyMaxList : List ℚ → Except PyErr ℚ
  | [] => .error (.exn "ValueError: max() arg is an empty sequence")
  | q :: t => .ok (t.foldl max q)

/-- Python `max(val_action, key = val_action.get)`: the first key attaining
the maximal value (a later key replaces the current one only when strictly
greater); raises on an empty dict. -/
def pyArgmax {A : Type} : List (A × ℚ) → Except PyErr A
  | [] => .error (.exn "ValueError: max() arg is an empty sequence")
  | x :: t => .ok (t.foldl (fun b y => if b.2 < y.2 then y else b) x).fst

/-- The `for s in states` body of one backup sweep, updating `val_dict`
IN PLACE (`val_dict[s] = float(max(val_action.values()))`), so that later
states of the same sweep see the values already updated by earlier states. -/
def sweepLoop (probs : S → A → List ℚ) (rewards : S → A → ℚ) (discount : ℚ)
    (actions : List A) : List S → List (S × ℚ) → Except PyErr (List (S × ℚ))
  | [], d => .ok d
  | s :: t, d => do
    let qs ← qlist probs rewards discount d s actions
    let m ← pyMaxList qs
    sweepLoop probs rewards discount actions t (dictSet d s m)

/-- `for k in range(horizon)`: the given number of successive sweeps. -/
def sweeps (probs : S → A → List ℚ) (rewards : S → A → ℚ) (discount : ℚ)
    (states : List S) (actions : List A) :
    Nat → List (S × ℚ) → Except PyErr (List (S × ℚ))
  | 0, d => .ok d
  | Nat.succ n, d => do
    let d2 ← sweepLoop probs rewards discount actions states d
    sweeps probs rewards discount states actions n d2

/-- The policy-extraction loop: `policy_dict[s] = max(val_action, key = val_action.get)`
for each state, against the final value dict. -/
def policyLoop (probs : S → A → List ℚ) (rewards : S → A → ℚ) (discount : ℚ)
    (actions : List A) (d : List (S × ℚ)) :
    List S → List (S × A) → Except PyErr (List (S × A))
  | [], acc => .ok acc
  | s :: t, acc => do
    let qs ← qlist probs rewards discount d s actions
    let a ← pyArgmax (actions.zip qs)
    policyLoop probs rewards discount actions d t (dictSet acc s a)

/-- Shallow embedding of `valit.value_iteration` from src/valit/valit.py:
validate `discount` and `horizon` (returning the source's error strings),
zero-initialise the value dict, run `horizon` in-place backup sweeps, then
extract the greedy policy, returning `(policy_dict, val_dict)`. -/
def value_iteration (states : List S) (actions : List A)
    (probs : S → A → List ℚ) (rewards : S → A → ℚ)
    (horizon : ℚ) (discount : ℚ) : Except PyErr (List (S × A) × List (S × ℚ)) :=
  if discount > 1 ∨ discount < 0 then
    .error (.errStr "Error: the discount must be between 0 and 1")
  else if horizon < 0 ∨ horizon.den ≠ 1 then
    .error (.errStr "Error: the horizon must be a positive integer")
  else do
    let d ← sweeps probs rewards discount states actions horizon.num.toNat (dictInit states)
    let p ← policyLoop probs rewards discount actions d states []
    pure (p, d)

/-! Pure counterparts of the loops above. On well-formed inputs (non-empty
action list, transition vectors of the right length) the monadic embedding
provably returns `.ok` of these pure computations; general claims are stated
through them. -/

/-- Dot product of a transition vector with the listed values. -/
def dotv (ps vs : List ℚ) : ℚ := (List.zipWith (fun x y => x * y) ps vs).sum

/-- The q-value the source computes for `(s, a)` against value dict `d`. -/
def qvalP (probs : S → A → List ℚ) (rewards : S → A → ℚ) (discount : ℚ)
    (d : List (S × ℚ)) (s : S) (a : A) : ℚ :=
  rewards s a + discount * dotv (probs s a) (d.map Prod.snd)

/-- First-maximum selection over `a :: l`: a later element replaces the
current one only when strictly greater, as in Python's `max` with a key. -/
def argmaxFold (f : A → ℚ) (a : A) (l : List A) : A :=
  l.foldl (fun b x => if f b < f x then x else b) a

/-- Maximal value of `f` over `a :: l`. -/
def maxFold (f : A → ℚ) (a : A) (l : List A) : ℚ :=
  l.foldl (fun m x => max m (f x)) (f a)

/-- Pure form of `sweepLoop` for the non-empty action list `a0 :: rest`. -/
def sweepP (probs : S → A → List ℚ) (rewards : S → A → ℚ) (discount : ℚ)
    (a0 : A) (rest : List A) : List S → List (S × ℚ) → List (S × ℚ)
  | [], d => d
  | s :: t, d => sweepP probs rewards discount a0 rest t
      (dictSet d s (maxFold (qvalP probs rewards discount d s) a0 rest))

/-- Pure form of `sweeps`. -/
def sweepsP (probs : S → A → List ℚ) (rewards : S → A → ℚ) (discount : ℚ)
    (a0 : A) (rest : List A) (states : List S) : Nat → List (S × ℚ) → List (S × ℚ)
  | 0, d => d
  | Nat.succ n, d => sweepsP probs rewards discount a0 rest states n
      (sweepP probs rewards discount a0 rest states d)

/-- Pure form of `policyLoop`. -/
def policyP (probs : S → A → List ℚ) (rewards : S → A → ℚ) (discount : ℚ)
    (a0 : A) (rest : List A) (d : List (S × ℚ)) :
    List S → List (S × A) → List (S × A)
  | [], acc => acc
  | s :: t, acc => policyP probs rewards discount a0 rest d t
      (dictSet acc s (argmaxFold (qvalP probs rewards discount d s) a0 rest))

/-- Largest element of a list of rationals (0 for the empty list; only used
on non-empty lists). -/
def listMax : List ℚ → ℚ
  | [] => 0
  | q :: t => t.foldl max q

/-- One synchronous (Jacobi) backup sweep as §4.1 of the spec prescribes it:
every state's new value is computed from the same snapshot `d` of the previous
sweep's values, and the whole value function is replaced only after the sweep.
This definition follows the spec's words and serves only for comparison with
the source-derived `value_iteration`. -/
def jacobiSweep (probs : S → A → List ℚ) (rewards : S → A → ℚ) (discount : ℚ)
    (states : List S) (actions : List A) (d : List (S × ℚ)) : List (S × ℚ) :=
  states.map (fun s =>
    (s, listMax (actions.map (fun a =>
          rewards s a + discount * dotv (probs s a) (d.map Prod.snd)))))

/-- `n` successive Jacobi sweeps (spec semantics, for comparison only). -/
def jacobiSweeps (probs : S → A → List ℚ) (rewards : S → A → ℚ) (discount : ℚ)
    (states : List S) (actions : List A) : Nat → List (S × ℚ) → List (S × ℚ)
  | 0, d => d
  | Nat.succ n, d => jacobiSweeps probs rewards discount states actions n
      (jacobiSweep probs rewards discount states actions d)

/-! Dictionary lemmas. -/

theorem dictSet_fst_of_mem {K V : Type} [DecidableEq K] :
    ∀ (d : List (K × V)) (k : K) (v : V), k ∈ d.map Prod.fst →
      (dictSet d k v).map Prod.fst = d.map Prod.fst
  | [], k, v, h => by simp at h
  | (k2, v2) :: rest, k, v, h => by
      by_cases hk : k2 = k
      · simp [dictSet, hk]
      · have h2 : k = k2 ∨ k ∈ rest.map Prod.fst := by
          simpa only [List.map_cons, List.mem_cons] using h
        have hm : k ∈ rest.map Prod.fst := h2.resolve_left (fun hc => hk hc.symm)
        simp [dictSet, hk, dictSet_fst_of_mem rest k v hm]

theorem dictSet_of_not_mem {K V : Type} [DecidableEq K] :
    ∀ (d : List (K × V)) (k : K) (v : V), k ∉ d.map Prod.fst →
      dictSet d k v = d ++ [(k, v)]
  | [], _, _, _ => rfl
  | (k2, v2) :: rest, k, v, h => by
      have hk : ¬k2 = k := by
        intro hk; exact h (by simp [hk])
      have hm : k ∉ rest.map Prod.fst := fun hc => h (by simp [hc])
      simp [dictSet, hk, dictSet_of_not_mem rest k v hm]

theorem foldl_dictSet_fresh {K V : Type} [DecidableEq K] (f : K → V) :
    ∀ (l : List K) (acc : List (K × V)), l.Nodup → (∀ k ∈ l, k ∉ acc.map Prod.fst) →
      l.foldl (fun d s => dictSet d s (f s)) acc = acc ++ l.map (fun s => (s, f s))
  | [], acc, _, _ => by simp
  | s :: t, acc, hnd, hf => by
      have hs : s ∉ acc.map Prod.fst := hf s (by simp)
      have hrec := foldl_dictSet_fresh f t (acc ++ [(s, f s)]) hnd.of_cons (by
        intro k hk
        have hks : ¬k = s := fun hc => (List.nodup_cons.1 hnd).1 (hc ▸ hk)
        have hka : k ∉ acc.map Prod.fst := hf k (by simp [hk])
        simp [hka, hks])
      simp only [List.foldl_cons, dictSet_of_not_mem acc s (f s) hs, hrec,
        List.map_cons, List.append_assoc, List.singleton_append]

/-- `dict(zip(states, [0]*len(states)))` for distinct states, explicitly. -/
theorem dictInit_eq_map {S : Type} [DecidableEq S] (states : List S)
    (h : states.Nodup) :
    dictInit states = states.map (fun s => (s, (0:ℚ))) :=
  foldl_dictSet_fresh (fun _ : S => (0:ℚ)) states [] h (by simp)

/-! Equivalence of the monadic loops with their pure counterparts on
well-formed inputs. -/

theorem qval_ok (probs : S → A → List ℚ) (rewards : S → A → ℚ) (discount : ℚ)
    (d : List (S × ℚ)) (s : S) (a : A) (h : (probs s a).length = d.length) :
    qval probs rewards discount d s a = .ok (qvalP probs rewards discount d s a) := by
  have hl : (probs s a).length = (d.map Prod.snd).length := by simpa using h
  simp [qval, qvalP, npMul, dotv, hl, Bind.bind, Except.bind, pure, Except.pure]

theorem qlist_ok (probs : S → A → List ℚ) (rewards : S → A → ℚ) (discount : ℚ)
    (d : List (S × ℚ)) (s : S) :
    ∀ (l : List A), (∀ a ∈ l, (probs s a).length = d.length) →
      qlist probs rewards discount d s l = .ok (l.map (qvalP probs rewards discount d s))
  | [], _ => rfl
  | a :: t, h => by
      have h1 := qval_ok probs rewards discount d s a (h a (by simp))
      have h2 := qlist_ok probs rewards discount d s t (fun b hb => h b (by simp [hb]))
      simp [qlist, h1, h2, Bind.bind, Except.bind, pure, Except.pure]

theorem pyMaxList_map (f : A → ℚ) (a : A) (l : List A) :
    pyMaxList ((a :: l).map f) = .ok (maxFold f a l) := by
  simp [pyMaxList, maxFold, List.foldl_map]

theorem zip_self_map (f : A → ℚ) :
    ∀ l : List A, l.zip (l.map f) = l.map (fun a => (a, f a))
  | [] => rfl
  | a :: t => by simp [zip_self_map f t]

theorem foldl_argmax_pair (f : A → ℚ) :
    ∀ (l : List A) (a : A),
      (l.map (fun x => (x, f x))).foldl
          (fun b y => if b.2 < y.2 then y else b) (a, f a)
        = (argmaxFold f a l, f (argmaxFold f a l))
  | [], a => rfl
  | x :: t, a => by
      by_cases h : f a < f x
      · simpa [argmaxFold, h] using foldl_argmax_pair f t x
      · simpa [argmaxFold, h] using foldl_argmax_pair f t a

theorem pyArgmax_zip (f : A → ℚ) (a : A) (l : List A) :
    pyArgmax ((a :: l).zip ((a :: l).map f)) = .ok (argmaxFold f a l) := by
  rw [zip_self_map]
  simp [pyArgmax, foldl_argmax_pair f l a]

theorem sweepP_fst (probs : S → A → List ℚ) (rewards : S → A → ℚ) (discount : ℚ)
    (a0 : A) (rest : List A) :
    ∀ (l : List S) (d : List (S × ℚ)), (∀ s ∈ l, s ∈ d.map Prod.fst) →
      (sweepP probs rewards discount a0 rest l d).map Prod.fst = d.map Prod.fst
  | [], _, _ => rfl
  | s :: t, d, h => by
      have hs : s ∈ d.map Prod.fst := h s (by simp)
      have hset := dictSet_fst_of_mem d s
        (maxFold (qvalP probs rewards discount d s) a0 rest) hs
      have hrec := sweepP_fst probs rewards discount a0 rest t
        (dictSet d s (maxFold (qvalP probs rewards discount d s) a0 rest))
        (fun u hu => by rw [hset]; exact h u (by simp [hu]))
      rw [sweepP, hrec, hset]

theorem sweepsP_fst (probs : S → A → List ℚ) (rewards : S → A → ℚ) (discount : ℚ)
    (a0 : A) (rest : List A) (states : List S) :
    ∀ (n : Nat) (d : List (S × ℚ)), d.map Prod.fst = states →
      (sweepsP probs rewards discount a0 rest states n d).map Prod.fst = states
  | 0, _, h => h
  | Nat.succ n, d, h => by
      have h1 : (sweepP probs rewards discount a0 rest states d).map Prod.fst
          = d.map Prod.fst :=
        sweepP_fst probs rewards discount a0 rest states d
          (fun u hu => by rw [h]; exact hu)
      exact sweepsP_fst probs rewards discount a0 rest states n _ (by rw [h1, h])

theorem sweepLoop_ok (probs : S → A → List ℚ) (rewards : S → A → ℚ) (discount : ℚ)
    (a0 : A) (rest : List A) (states0 : List S)
    (hlen : ∀ s ∈ states0, ∀ a ∈ a0 :: rest, (probs s a).length = states0.length) :
    ∀ (l : List S) (d : List (S × ℚ)), (∀ s ∈ l, s ∈ states0) →
      d.map Prod.fst = states0 →
      sweepLoop probs rewards discount (a0 :: rest) l d
        = .ok (sweepP probs rewards discount a0 rest l d)
  | [], _, _, _ => rfl
  | s :: t, d, hl, hd => by
      have hsl : s ∈ states0 := hl s (by simp)
      have hdlen : d.length = states0.length := by
        have := congrArg List.length hd
        simpa using this
      have hq := qlist_ok probs rewards discount d s (a0 :: rest)
        (fun a ha => by rw [hdlen]; exact hlen s hsl a ha)
      have hmax := pyMaxList_map (qvalP probs rewards discount d s) a0 rest
      have hkeys : (dictSet d s
          (maxFold (qvalP probs rewards discount d s) a0 rest)).map Prod.fst = states0 := by
        rw [dictSet_fst_of_mem d s _ (by rw [hd]; exact hsl), hd]
      have hrec := sweepLoop_ok probs rewards discount a0 rest states0 hlen t
        (dictSet d s (maxFold (qvalP probs rewards discount d s) a0 rest))
        (fun u hu => hl u (by simp [hu])) hkeys
      have hmax2 : pyMaxList (qvalP probs rewards discount d s a0
          :: List.map (qvalP probs rewards discount d s) rest)
          = Except.ok (maxFold (qvalP probs rewards discount d s) a0 rest) := by
        simpa using hmax
      simp [sweepLoop, hq, hmax2, hrec, sweepP, Bind.bind, Except.bind]

theorem sweeps_ok (probs : S → A → List ℚ) (rewards : S → A → ℚ) (discount : ℚ)
    (a0 : A) (rest : List A) (states : List S)
    (hlen : ∀ s ∈ states, ∀ a ∈ a0 :: rest, (probs s a).length = states.length) :
    ∀ (n : Nat) (d : List (S × ℚ)), d.map Prod.fst = states →
      sweeps probs rewards discount states (a0 :: rest) n d
        = .ok (sweepsP probs rewards discount a0 rest states n d)
  | 0, _, _ => rfl
  | Nat.succ n, d, hd => by
      have h1 := sweepLoop_ok probs rewards discount a0 rest states hlen states d
        (fun u hu => hu) hd
      have hkeys : (sweepP probs rewards discount a0 rest states d).map Prod.fst
          = states := by
        rw [sweepP_fst probs rewards discount a0 rest states d
          (fun u hu => by rw [hd]; exact hu), hd]
      have hrec := sweeps_ok probs rewards discount a0 rest states hlen n
        (sweepP probs rewards discount a0 rest states d) hkeys
      simp [sweeps, h1, hrec, sweepsP, Bind.bind, Except.bind]

theorem policyLoop_ok (probs : S → A → List ℚ) (rewards : S → A → ℚ) (discount : ℚ)
    (a0 : A) (rest : List A) (states0 : List S) (d : List (S × ℚ))
    (hd : d.length = states0.length)
    (hlen : ∀ s ∈ states0, ∀ a ∈ a0 :: rest, (probs s a).length = states0.length) :
    ∀ (l : List S) (acc : List (S × A)), (∀ s ∈ l, s ∈ states0) →
      policyLoop probs rewards discount (a0 :: rest) d l acc
        = .ok (policyP probs rewards discount a0 rest d l acc)
  | [], _, _ => rfl
  | s :: t, acc, hl => by
      have hsl : s ∈ states0 := hl s (by simp)
      have hq := qlist_ok probs rewards discount d s (a0 :: rest)
        (fun a ha => by rw [hd]; exact hlen s hsl a ha)
      have harg := pyArgmax_zip (qvalP probs rewards discount d s) a0 rest
      have hrec := policyLoop_ok probs rewards discount a0 rest states0 d hd hlen t
        (dictSet acc s (argmaxFold (qvalP probs rewards discount d s) a0 rest))
        (fun u hu => hl u (by simp [hu]))
      have harg2 : pyArgmax ((a0, qvalP probs rewards discount d s a0)
          :: rest.zip (List.map (qvalP probs rewards discount d s) rest))
          = Except.ok (argmaxFold (qvalP probs rewards discount d s) a0 rest) := by
        simpa using harg
      simp [policyLoop, hq, harg2, hrec, policyP, Bind.bind, Except.bind]

theorem policyP_eq_map (probs : S → A → List ℚ) (rewards : S → A → ℚ)
    (discount : ℚ) (a0 : A) (rest : List A) (d : List (S × ℚ)) :
    ∀ (l : List S) (acc : List (S × A)), l.Nodup →
      (∀ s ∈ l, s ∉ acc.map Prod.fst) →
      policyP probs rewards discount a0 rest d l acc
        = acc ++ l.map (fun s =>
            (s, argmaxFold (qvalP probs rewards discount d s) a0 rest))
  | [], acc, _, _ => by simp [policyP]
  | s :: t, acc, hnd, hf => by
      have hs : s ∉ acc.map Prod.fst := hf s (by simp)
      have hrec := policyP_eq_map probs rewards discount a0 rest d t
        (acc ++ [(s, argmaxFold (qvalP probs rewards discount d s) a0 rest)])
        hnd.of_cons (by
          intro k hk
          have hks : ¬k = s := fun hc => (List.nodup_cons.1 hnd).1 (hc ▸ hk)
          have hka : k ∉ acc.map Prod.fst := hf k (by simp [hk])
          simp [hka, hks])
      rw [policyP, dictSet_of_not_mem acc s _ hs, hrec]
      simp

/-! Further helper lemmas. -/

theorem dotv_zero {α : Type} : ∀ (ps : List ℚ) (l : List α),
    dotv ps (l.map (fun _ => (0:ℚ))) = 0
  | [], _ => rfl
  | _ :: _, [] => rfl
  | p :: ps, x :: l => by simpa [dotv] using dotv_zero ps l

theorem sweeps_states_nil (probs : S → A → List ℚ) (rewards : S → A → ℚ)
    (discount : ℚ) (actions : List A) :
    ∀ (n : Nat) (d : List (S × ℚ)),
      sweeps probs rewards discount [] actions n d = .ok d
  | 0, _ => rfl
  | Nat.succ n, d => by
      simp [sweeps, sweepLoop, Bind.bind, Except.bind,
        sweeps_states_nil probs rewards discount actions n d]

/-- The element selected by `argmaxFold` is the FIRST element of `a :: l`
attaining the maximum of `f`: everything strictly before it is strictly
smaller, and nothing in the list is larger. -/
theorem argmaxFold_split (f : A → ℚ) :
    ∀ (l : List A) (a : A), ∃ l1 l2,
      a :: l = l1 ++ argmaxFold f a l :: l2 ∧
      (∀ b ∈ l1, f b < f (argmaxFold f a l)) ∧
      (∀ b ∈ a :: l, f b ≤ f (argmaxFold f a l))
  | [], a => ⟨[], [], by simp [argmaxFold], by simp, by simp [argmaxFold]⟩
  | x :: t, a => by
      have hfold : argmaxFold f a (x :: t)
          = argmaxFold f (if f a < f x then x else a) t := rfl
      by_cases h : f a < f x
      · obtain ⟨l1, l2, he, hlt, hle⟩ := argmaxFold_split f t x
        have hr : argmaxFold f a (x :: t) = argmaxFold f x t := by
          rw [hfold, if_pos h]
        refine ⟨a :: l1, l2, ?_, ?_, ?_⟩
        · rw [hr, List.cons_append, ← he]
        · intro b hb
          rw [hr]
          rcases List.mem_cons.1 hb with rfl | hb2
          · exact lt_of_lt_of_le h (hle x (by simp))
          · exact hlt b hb2
        · intro b hb
          rw [hr]
          rcases List.mem_cons.1 hb with rfl | hb2
          · exact le_of_lt (lt_of_lt_of_le h (hle x (by simp)))
          · exact hle b hb2
      · obtain ⟨l1, l2, he, hlt, hle⟩ := argmaxFold_split f t a
        have hr : argmaxFold f a (x :: t) = argmaxFold f a t := by
          rw [hfold, if_neg h]
        have hxa : f x ≤ f a := not_lt.1 h
        cases l1 with
        | nil =>
          rw [List.nil_append] at he
          injection he with h1 h2
          refine ⟨[], x :: t, ?_, ?_, ?_⟩
          · rw [hr, ← h1]; rfl
          · intro b hb
            exact absurd hb (List.not_mem_nil b)
          · intro b hb
            rw [hr, ← h1]
            rcases List.mem_cons.1 hb with rfl | hb2
            · exact le_refl _
            · rcases List.mem_cons.1 hb2 with rfl | hb3
              · exact hxa
              · have h3 := hle b (by simp [hb3])
                rw [← h1] at h3
                exact h3
        | cons c l1t =>
          rw [List.cons_append] at he
          injection he with hac ht
          refine ⟨a :: x :: l1t, l2, ?_, ?_, ?_⟩
          · rw [hr]
            simp only [List.cons_append]
            rw [← ht]
          · intro b hb
            rw [hr]
            have haf : f a < f (argmaxFold f a t) := by
              apply hlt
              rw [← hac]
              exact List.mem_cons_self a l1t
            rcases List.mem_cons.1 hb with rfl | hb2
            · exact haf
            · rcases List.mem_cons.1 hb2 with rfl | hb3
              · exact lt_of_le_of_lt hxa haf
              · exact hlt b (by simp [hb3])
          · intro b hb
            rw [hr]
            rcases List.mem_cons.1 hb with rfl | hb2
            · exact hle _ (by simp)
            · rcases List.mem_cons.1 hb2 with rfl | hb3
              · exact le_trans hxa (hle _ (by simp))
              · exact hle b (by simp [hb3])

theorem argmaxFold_mem (f : A → ℚ) (a : A) (l : List A) :
    argmaxFold f a l ∈ a :: l := by
  obtain ⟨l1, l2, he, -, -⟩ := argmaxFold_split f l a
  rw [he]
  exact List.mem_append.2 (Or.inr (List.mem_cons_self _ _))

/-- On a valid, well-formed input (discount in `[0,1]`, non-negative integral
horizon, distinct states, non-empty actions, transition vectors of length
`|states|`) the source returns `.ok` of the pure in-place sweeps followed by
the pure greedy policy extraction. -/
theorem value_iteration_ok (states : List S) (a0 : A) (rest : List A)
    (probs : S → A → List ℚ) (rewards : S → A → ℚ) (horizon discount : ℚ)
    (hd0 : 0 ≤ discount) (hd1 : discount ≤ 1)
    (hh : 0 ≤ horizon) (hden : horizon.den = 1) (hnd : states.Nodup)
    (hlen : ∀ s ∈ states, ∀ a ∈ a0 :: rest, (probs s a).length = states.length) :
    value_iteration states (a0 :: rest) probs rewards horizon discount
      = .ok
        (policyP probs rewards discount a0 rest
          (sweepsP probs rewards discount a0 rest states horizon.num.toNat
            (states.map (fun s => (s, (0:ℚ))))) states [],
         sweepsP probs rewards discount a0 rest states horizon.num.toNat
           (states.map (fun s => (s, (0:ℚ))))) := by
  have hc1 : ¬(discount > 1 ∨ discount < 0) := by
    push_neg
    exact ⟨hd1, hd0⟩
  have hc2 : ¬(horizon < 0 ∨ horizon.den ≠ 1) := by
    push_neg
    exact ⟨hh, hden⟩
  have hkeys0 : (states.map (fun s => (s, (0:ℚ)))).map Prod.fst = states := by
    have h0 : (Prod.fst ∘ fun s : S => (s, (0:ℚ))) = id := rfl
    rw [List.map_map, h0, List.map_id]
  have hsw := sweeps_ok probs rewards discount a0 rest states hlen horizon.num.toNat
    (states.map (fun s => (s, (0:ℚ)))) hkeys0
  have hkeysn := sweepsP_fst probs rewards discount a0 rest states horizon.num.toNat
    (states.map (fun s => (s, (0:ℚ)))) hkeys0
  have hdn : (sweepsP probs rewards discount a0 rest states horizon.num.toNat
      (states.map (fun s => (s, (0:ℚ))))).length = states.length := by
    have h2 := congrArg List.length hkeysn
    simpa using h2
  have hpol := policyLoop_ok probs rewards discount a0 rest states
    (sweepsP probs rewards discount a0 rest states horizon.num.toNat
      (states.map (fun s => (s, (0:ℚ))))) hdn hlen states []
    (fun u hu => hu)
  simp only [value_iteration, if_neg hc1, if_neg hc2]
  rw [dictInit_eq_map states hnd]
  simp [hsw, hpol, Bind.bind, Except.bind, pure, Except.pure]

/-! The specification claims. -/

/-- C2 (amended): the source performs no emptiness validation. A call with
empty `states` (and valid `discount`/`horizon`) returns successfully with an
empty policy dict and an empty value dict; a call with non-empty `states` and
empty `actions` dies with an uncaught ValueError from `max` on an empty
sequence — in neither case is an InvalidParameter error produced. -/
theorem C2_empty_behavior (states : List S) (actions : List A)
    (probs : S → A → List ℚ) (rewards : S → A → ℚ) (horizon discount : ℚ)
    (hd : ¬(discount > 1 ∨ discount < 0))
    (hh : ¬(horizon < 0 ∨ horizon.den ≠ 1)) :
    value_iteration ([] : List S) actions probs rewards horizon discount
      = .ok ([], []) ∧
    (states ≠ [] →
      value_iteration states ([] : List A) probs rewards horizon discount
        = .error (.exn "ValueError: max() arg is an empty sequence")) := by
  constructor
  · simp only [value_iteration, if_neg hd, if_neg hh]
    simp [dictInit, sweeps_states_nil probs rewards discount actions,
      policyLoop, Bind.bind, Except.bind, pure, Except.pure]
  · intro hne
    obtain ⟨s0, t, rfl⟩ : ∃ s0 t, states = s0 :: t := by
      cases states with
      | nil => exact absurd rfl hne
      | cons s0 t => exact ⟨s0, t, rfl⟩
    simp only [value_iteration, if_neg hd, if_neg hh]
    cases hn : horizon.num.toNat with
    | zero =>
      simp [sweeps, policyLoop, qlist, pyArgmax, Bind.bind, Except.bind]
    | succ n =>
      simp [sweeps, sweepLoop, qlist, pyMaxList, Bind.bind, Except.bind]

/-- C4: a discount outside `[0, 1]` makes the call fail immediately with the
source's invalid-discount error, and the result does not depend on the
transition or reward function — they are never consulted. -/
theorem C4_invalid_discount (states : List S) (actions : List A)
    (probs probs2 : S → A → List ℚ) (rewards rewards2 : S → A → ℚ)
    (horizon discount : ℚ) (hd : discount > 1 ∨ discount < 0) :
    value_iteration states actions probs rewards horizon discount
      = .error (.errStr "Error: the discount must be between 0 and 1") ∧
    value_iteration states actions probs rewards horizon discount
      = value_iteration states actions probs2 rewards2 horizon discount := by
  constructor <;> simp [value_iteration, hd]

/-- C5: a horizon that is negative or non-integral makes the call fail with
one of the source's parameter-error strings (the discount one if the discount
is also invalid, otherwise the horizon one); no policy or value result is
returned. -/
theorem C5_invalid_horizon (states : List S) (actions : List A)
    (probs : S → A → List ℚ) (rewards : S → A → ℚ) (horizon discount : ℚ)
    (hh : horizon < 0 ∨ horizon.den ≠ 1) :
    value_iteration states actions probs rewards horizon discount
      = .error (.errStr "Error: the discount must be between 0 and 1") ∨
    value_iteration states actions probs rewards horizon discount
      = .error (.errStr "Error: the horizon must be a positive integer") := by
  by_cases hd : discount > 1 ∨ discount < 0
  · left
    simp [value_iteration, hd]
  · right
    simp [value_iteration, hd, hh]

/-- C6: with horizon = 0 on a valid input, the value function stays at the
zero-initialisation for every state, and the policy is the argmax (first
maximiser in action order) of the immediate rewards alone — a greedy
evaluation against the all-zero value function. -/
theorem C6_horizon_zero (states : List S) (a0 : A) (rest : List A)
    (probs : S → A → List ℚ) (rewards : S → A → ℚ) (discount : ℚ)
    (hd0 : 0 ≤ discount) (hd1 : discount ≤ 1) (hnd : states.Nodup)
    (hlen : ∀ s ∈ states, ∀ a ∈ a0 :: rest, (probs s a).length = states.length) :
    value_iteration states (a0 :: rest) probs rewards 0 discount
      = .ok (states.map (fun s => (s, argmaxFold (rewards s) a0 rest)),
             states.map (fun s => (s, (0:ℚ)))) := by
  have h := value_iteration_ok states a0 rest probs rewards 0 discount hd0 hd1
    le_rfl rfl hnd hlen
  have h0 : (0:ℚ).num.toNat = 0 := rfl
  rw [h0] at h
  have hq0 : ∀ (s : S),
      qvalP probs rewards discount (states.map (fun u => (u, (0:ℚ)))) s
        = rewards s := by
    intro s
    funext a
    unfold qvalP
    rw [List.map_map]
    have h2 : (Prod.snd ∘ fun u : S => (u, (0:ℚ))) = fun _ => (0:ℚ) := rfl
    rw [h2, dotv_zero, mul_zero, add_zero]
  rw [h]
  simp only [sweepsP]
  rw [policyP_eq_map probs rewards discount a0 rest _ states [] hnd (by simp)]
  simp only [List.nil_append, hq0]

/-- C7: whenever several actions tie at the maximal q-value under the final
value function, the returned policy assigns that state the first such action
in the caller's action-enumeration order: the chosen action is preceded only
by strictly worse actions and is at least as good as every action. -/
theorem C7_tie_break (states : List S) (a0 : A) (rest : List A)
    (probs : S → A → List ℚ) (rewards : S → A → ℚ) (horizon discount : ℚ)
    (hd0 : 0 ≤ discount) (hd1 : discount ≤ 1) (hh : 0 ≤ horizon)
    (hden : horizon.den = 1) (hnd : states.Nodup)
    (hlen : ∀ s ∈ states, ∀ a ∈ a0 :: rest, (probs s a).length = states.length) :
    ∃ p v, value_iteration states (a0 :: rest) probs rewards horizon discount
        = .ok (p, v) ∧
      ∀ s ∈ states, ∃ a l1 l2, (s, a) ∈ p ∧ a0 :: rest = l1 ++ a :: l2 ∧
        (∀ b ∈ l1, qvalP probs rewards discount v s b
          < qvalP probs rewards discount v s a) ∧
        (∀ b ∈ a0 :: rest, qvalP probs rewards discount v s b
          ≤ qvalP probs rewards discount v s a) := by
  refine ⟨_, _, value_iteration_ok states a0 rest probs rewards horizon discount
    hd0 hd1 hh hden hnd hlen, ?_⟩
  intro s hs
  obtain ⟨l1, l2, he, hlt, hle⟩ := argmaxFold_split
    (qvalP probs rewards discount (sweepsP probs rewards discount a0 rest states
      horizon.num.toNat (states.map (fun u => (u, (0:ℚ))))) s) rest a0
  refine ⟨_, l1, l2, ?_, he, hlt, hle⟩
  rw [policyP_eq_map probs rewards discount a0 rest _ states [] hnd (by simp),
    List.nil_append]
  exact List.mem_map.2 ⟨s, hs, rfl⟩

/-- C8: the embedding of `value_iteration` is a pure function, so two calls
on identical inputs (states, actions, transition model, reward model,
horizon, discount) return identical policy and value outputs. -/
theorem C8_deterministic (states1 states2 : List S) (actions1 actions2 : List A)
    (probs1 probs2 : S → A → List ℚ) (rewards1 rewards2 : S → A → ℚ)
    (horizon1 horizon2 discount1 discount2 : ℚ)
    (hs : states1 = states2) (ha : actions1 = actions2) (hp : probs1 = probs2)
    (hr : rewards1 = rewards2) (hh : horizon1 = horizon2)
    (hd : discount1 = discount2) :
    value_iteration states1 actions1 probs1 rewards1 horizon1 discount1
      = value_iteration states2 actions2 probs2 rewards2 horizon2 discount2 := by
  subst hs
  subst ha
  subst hp
  subst hr
  subst hh
  subst hd
  rfl

/-- C10: on a successful run with valid inputs, the policy and value
dictionaries have exactly the input states as keys in the states'
enumeration order, and every policy value is one of the input actions. -/
theorem C10_result_shape (states : List S) (a0 : A) (rest : List A)
    (probs : S → A → List ℚ) (rewards : S → A → ℚ) (horizon discount : ℚ)
    (hd0 : 0 ≤ discount) (hd1 : discount ≤ 1) (hh : 0 ≤ horizon)
    (hden : horizon.den = 1) (hnd : states.Nodup)
    (hlen : ∀ s ∈ states, ∀ a ∈ a0 :: rest, (probs s a).length = states.length) :
    ∃ p v, value_iteration states (a0 :: rest) probs rewards horizon discount
        = .ok (p, v) ∧
      p.map Prod.fst = states ∧ v.map Prod.fst = states ∧
      ∀ pr ∈ p, pr.2 ∈ a0 :: rest := by
  have hkeys0 : (states.map (fun s => (s, (0:ℚ)))).map Prod.fst = states := by
    have h0 : (Prod.fst ∘ fun s : S => (s, (0:ℚ))) = id := rfl
    rw [List.map_map, h0, List.map_id]
  refine ⟨_, _, value_iteration_ok states a0 rest probs rewards horizon discount
    hd0 hd1 hh hden hnd hlen, ?_, ?_, ?_⟩
  · rw [policyP_eq_map probs rewards discount a0 rest _ states [] hnd (by simp),
      List.nil_append, List.map_map]
    have h0 : (Prod.fst ∘ fun s : S => (s, argmaxFold (qvalP probs rewards discount
        (sweepsP probs rewards discount a0 rest states horizon.num.toNat
          (states.map (fun u => (u, (0:ℚ))))) s) a0 rest)) = id := rfl
    rw [h0, List.map_id]
  · exact sweepsP_fst probs rewards discount a0 rest states horizon.num.toNat _ hkeys0
  · intro pr hpr
    rw [policyP_eq_map probs rewards discount a0 rest _ states [] hnd (by simp),
      List.nil_append] at hpr
    obtain ⟨s, hs, rfl⟩ := List.mem_map.1 hpr
    exact argmaxFold_mem _ a0 rest

/-! Concrete evaluations. The arithmetic of `Rat` is made locally
semireducible so that closed runs of the embedding reduce inside `decide`. -/

section ConcreteEvaluations

attribute [local semireducible] Rat.add Rat.mul Rat.inv Rat.sub

/-- C1: on the spec's deterministic two-state chain (s0 -> s1 with reward 1,
s1 -> s0 with reward 0, discount 1, horizon 2) the source returns the value
function 2.0 / 2.0, because its sweeps update `val_dict` in place
(Gauss-Seidel) and later states read values already updated in the same
sweep; the synchronous Jacobi semantics the spec prescribes, hand-unrolled
from the same zero initialisation, gives 1.0 / 1.0 instead. -/
theorem C1_two_state_chain :
    value_iteration [0, 1] [0]
        (fun s _ => if s = 0 then [0, 1] else [1, 0])
        (fun s _ => if s = 0 then (1:ℚ) else 0) 2 1
      = .ok ([(0, 0), (1, 0)], [(0, 2), (1, 2)]) ∧
    jacobiSweeps (fun s _ => if s = 0 then [0, 1] else [1, 0])
        (fun s _ => if s = 0 then (1:ℚ) else 0) 1 [0, 1] [0] 2 [(0, 0), (1, 0)]
      = [(0, 1), (1, 1)] ∧
    ((2:ℚ) ≠ 1) :=
  ⟨by decide, by decide, by norm_num⟩

/-- C2 (counterexample): a call with empty `states` and otherwise valid
parameters does NOT fail with an InvalidParameter error — it returns
successfully with empty dictionaries. -/
theorem C2_counterexample :
    value_iteration ([] : List ℕ) [0] (fun _ _ => [(1:ℚ)]) (fun _ _ => (0:ℚ)) 1 1
      = .ok ([], []) := by
  decide

/-- C2 witness: the amended behavior at a concrete instance — empty states
return `.ok` with empty dicts, empty actions raise an uncaught ValueError. -/
theorem C2_empty_behavior_witness :
    value_iteration ([] : List ℕ) [0] (fun _ _ => [(1:ℚ)]) (fun _ _ => (0:ℚ)) 1 1
      = .ok ([], []) ∧
    value_iteration [0] ([] : List ℕ) (fun _ _ => [(1:ℚ)]) (fun _ _ => (0:ℚ)) 1 1
      = .error (.exn "ValueError: max() arg is an empty sequence") := by
  have h := C2_empty_behavior [0] [0] (fun _ _ => [(1:ℚ)]) (fun _ _ => (0:ℚ)) 1 1
    (by norm_num) (by decide)
  exact ⟨h.1, h.2 (by decide)⟩

/-- C3 (counterexample): a transition function returning the vector `[0.5]`
(summing to 0.5) does NOT make the call fail with a ModelContractViolation —
the run completes and returns a policy and a value function. -/
theorem C3_counterexample :
    value_iteration [0] [0] (fun _ _ => [(1:ℚ)/2]) (fun _ _ => (1:ℚ)) 1 1
      = .ok ([(0, 0)], [(0, 1)]) := by
  decide

/-- C3 (amended): the source validates nothing about transition vectors: a
vector summing to 0.5 is consumed as-is and a normal (silently wrong) result
is returned, and a vector whose length cannot be broadcast against the value
list dies with an uncaught numpy ValueError, not a ModelContractViolation. -/
theorem C3_no_vector_validation :
    value_iteration [0] [0] (fun _ _ => [(1:ℚ)/2]) (fun _ _ => (1:ℚ)) 2 1
      = .ok ([(0, 0)], [(0, 3/2)]) ∧
    value_iteration [0, 1] [0] (fun _ _ => [(1:ℚ)/3, 1/3, 1/3])
        (fun _ _ => (1:ℚ)) 1 1
      = .error (.exn "ValueError: operands could not be broadcast together") :=
  ⟨by decide, by decide⟩

/-- C4 witness: at `discount = 3/2` the call fails with the invalid-discount
error and the result is independent of the model functions. -/
theorem C4_invalid_discount_witness :
    value_iteration [0] [0] (fun _ _ => [(1:ℚ)]) (fun _ _ => (0:ℚ)) 1 (3/2)
      = .error (.errStr "Error: the discount must be between 0 and 1") ∧
    value_iteration [0] [0] (fun _ _ => [(1:ℚ)]) (fun _ _ => (0:ℚ)) 1 (3/2)
      = value_iteration [0] [0] (fun _ _ => [(1:ℚ), 1]) (fun _ _ => (7:ℚ)) 1 (3/2) :=
  C4_invalid_discount [0] [0] (fun _ _ => [(1:ℚ)]) (fun _ _ => [(1:ℚ), 1])
    (fun _ _ => (0:ℚ)) (fun _ _ => (7:ℚ)) 1 (3/2) (Or.inl (by norm_num))

/-- C5 witness: at `horizon = -1` (with a valid discount) the call fails with
one of the parameter-error strings. -/
theorem C5_invalid_horizon_witness :
    value_iteration [0] [0] (fun _ _ => [(1:ℚ)]) (fun _ _ => (0:ℚ)) (-1) 1
      = .error (.errStr "Error: the discount must be between 0 and 1") ∨
    value_iteration [0] [0] (fun _ _ => [(1:ℚ)]) (fun _ _ => (0:ℚ)) (-1) 1
      = .error (.errStr "Error: the horizon must be a positive integer") :=
  C5_invalid_horizon [0] [0] (fun _ _ => [(1:ℚ)]) (fun _ _ => (0:ℚ)) (-1) 1
    (Or.inl (by norm_num))

/-- C6 witness: horizon 0 on a concrete two-state, two-action MDP. -/
theorem C6_horizon_zero_witness :
    value_iteration [0, 1] [0, 1] (fun _ _ => [(1:ℚ)/2, 1/2])
        (fun _ a => if a = 0 then (1:ℚ) else 2) 0 1
      = .ok ([0, 1].map (fun s =>
               (s, argmaxFold (fun a => if a = 0 then (1:ℚ) else 2) 0 [1])),
             [0, 1].map (fun s => (s, (0:ℚ)))) :=
  C6_horizon_zero [0, 1] 0 [1] (fun _ _ => [(1:ℚ)/2, 1/2])
    (fun _ a => if a = 0 then (1:ℚ) else 2) 1 (by norm_num) le_rfl
    (by decide) (by decide)

/-- C7 witness: a state where both actions tie exactly. -/
theorem C7_tie_break_witness :
    ∃ p v, value_iteration [0] [0, 1] (fun _ _ => [(1:ℚ)]) (fun _ _ => (1:ℚ)) 1 1
        = .ok (p, v) ∧
      ∀ s ∈ [0], ∃ a l1 l2, (s, a) ∈ p ∧ 0 :: [1] = l1 ++ a :: l2 ∧
        (∀ b ∈ l1, qvalP (fun _ _ => [(1:ℚ)]) (fun _ _ => (1:ℚ)) 1 v s b
          < qvalP (fun _ _ => [(1:ℚ)]) (fun _ _ => (1:ℚ)) 1 v s a) ∧
        (∀ b ∈ 0 :: [1], qvalP (fun _ _ => [(1:ℚ)]) (fun _ _ => (1:ℚ)) 1 v s b
          ≤ qvalP (fun _ _ => [(1:ℚ)]) (fun _ _ => (1:ℚ)) 1 v s a) :=
  C7_tie_break [0] 0 [1] (fun _ _ => [(1:ℚ)]) (fun _ _ => (1:ℚ)) 1 1
    (by norm_num) le_rfl (by norm_num) rfl (by decide) (by decide)

/-- C8 witness: two identical invocations on a tie-prone input coincide. -/
theorem C8_deterministic_witness :
    value_iteration [0] [0, 1] (fun _ _ => [(1:ℚ)]) (fun _ _ => (1:ℚ)) 1 1
      = value_iteration [0] [0, 1] (fun _ _ => [(1:ℚ)]) (fun _ _ => (1:ℚ)) 1 1 :=
  C8_deterministic [0] [0] [0, 1] [0, 1] (fun _ _ => [(1:ℚ)]) (fun _ _ => [(1:ℚ)])
    (fun _ _ => (1:ℚ)) (fun _ _ => (1:ℚ)) 1 1 1 1 rfl rfl rfl rfl rfl rfl

set_option maxRecDepth 80000 in
/-- C9: the one-state self-loop MDP with constant reward 5, discount 0.9 and
horizon 100 returns the policy assigning the single action and a value within
1/100 of 50 (the exact value is 50 - 50 * 0.9^100). -/
theorem C9_single_state_convergence :
    ∃ v : ℚ, value_iteration [0] [0] (fun _ _ => [(1:ℚ)]) (fun _ _ => (5:ℚ))
        100 (9/10)
      = .ok ([(0, 0)], [(0, v)]) ∧ |v - 50| < 1/100 := by
  refine ⟨50 - 50 * (9/10)^100, by decide, ?_⟩
  rw [abs_lt]
  constructor
  · norm_num
  · norm_num

/-- C10 witness: a concrete valid run with two states and two actions. -/
theorem C10_result_shape_witness :
    ∃ p v, value_iteration [0, 1] [0, 1] (fun _ _ => [(1:ℚ)/2, 1/2])
        (fun s a => (s:ℚ) + a) 3 (1/2) = .ok (p, v) ∧
      p.map Prod.fst = [0, 1] ∧ v.map Prod.fst = [0, 1] ∧
      ∀ pr ∈ p, pr.2 ∈ 0 :: [1] :=
  C10_result_shape [0, 1] 0 [1] (fun _ _ => [(1:ℚ)/2, 1/2])
    (fun s a => (s:ℚ) + a) 3 (1/2) (by norm_num) (by norm_num) (by norm_num)
    rfl (by decide) (by decide)

end ConcreteEvaluations

end Valit
